import Mathlib

/-!
# Formal model of the CIFAR-10 ResNet training harness (`trainer.py`)

A shallow embedding of the control logic of `trainer.py`: best-model
tracking, periodic checkpointing, resume, the learning-rate schedule, the
`AverageMeter` running-mean tracker, and the top-k `accuracy` evaluator.

Machine floating-point values are modelled as exact rationals (`ℚ`);
opaque model parameter blobs are modelled as lists of rationals; the file
system is modelled as a partial map from paths to checkpoint records.
-/

/-! ## Checkpoint records and the checkpoint store (trainer.py lines 81-84, 163-177) -/

/-- A checkpoint record: the dictionary `{'epoch', 'state_dict', 'best_prec1'}`
passed to `torch.save` and read back by `torch.load`. -/
structure Checkpoint where
  epoch : ℕ
  state_dict : List ℚ
  best_prec1 : ℚ
deriving DecidableEq

/-- The checkpoint record written after finishing epoch `epoch`
(trainer.py lines 163-168 and 171-177): it stores `epoch + 1`. -/
def mkCheckpointRecord (epoch : ℕ) (state_dict : List ℚ) (best_prec1 : ℚ) : Checkpoint :=
  { epoch := epoch + 1, state_dict := state_dict, best_prec1 := best_prec1 }

/-- `torch.save` to a path: overwrites any record previously at that path. -/
def saveCheckpoint (store : List (String × Checkpoint)) (path : String) (ck : Checkpoint) :
    List (String × Checkpoint) :=
  (path, ck) :: store.filter (fun e => decide (e.1 ≠ path))

/-- `torch.load` from a path: the record at that path, if any. -/
def loadCheckpoint (store : List (String × Checkpoint)) (path : String) : Option Checkpoint :=
  (store.find? (fun e => decide (e.1 = path))).map Prod.snd

/-! ## Resume logic (trainer.py lines 78-88) -/

/-- Outcome of the optional resume block: the effective start epoch, best
metric, model parameters, and whether the missing-checkpoint message
(`"=> no checkpoint found at ..."`) was printed. -/
structure ResumeOutcome where
  start_epoch : ℕ
  best_prec1 : ℚ
  params : List ℚ
  logged_missing : Bool
deriving DecidableEq

/-- The resume block of `main` (trainer.py lines 78-88).  `resumeArg` is
`args.resume`; `fs` models `os.path.isfile` plus `torch.load` as a partial
map from paths to checkpoints; `start_epoch0`, `best0`, `params0` are the
values in effect before the block (`args.start_epoch`, the global
`best_prec1`, the freshly built model).  The missing-path branch only
prints; it never raises. -/
def resumeStep (resumeArg : Option String) (fs : String → Option Checkpoint)
    (start_epoch0 : ℕ) (best0 : ℚ) (params0 : List ℚ) : ResumeOutcome :=
  match resumeArg with
  | none => ⟨start_epoch0, best0, params0, false⟩
  | some path =>
    match fs path with
    | some ck => ⟨ck.epoch, ck.best_prec1, ck.state_dict, false⟩
    | none => ⟨start_epoch0, best0, params0, true⟩

/-- The epoch indices executed by the main loop,
`for epoch in range(args.start_epoch, args.epochs)` (trainer.py line 142). -/
def epochsToRun (start_epoch epochs : ℕ) : List ℕ :=
  (List.range epochs).drop start_epoch

/-! ## Best-metric tracking (trainer.py lines 58, 161-168) -/

/-- Initial value of the module-level global `best_prec1 = 0` (trainer.py line 58). -/
def best_prec1_init : ℚ := 0

/-- One epoch's best-tracking step (trainer.py lines 161-163):
`is_best = prec1 > best_prec1`, `best_prec1 = max(prec1, best_prec1)`,
and the best checkpoint is written exactly when `is_best` holds.
Returns the updated best and the `is_best` flag. -/
def bestStep (best_prec1 prec1 : ℚ) : ℚ × Bool :=
  let is_best := decide (prec1 > best_prec1)
  (max prec1 best_prec1, is_best)

/-- The per-epoch "best checkpoint written?" flags produced by folding
`bestStep` over a sequence of validation metrics. -/
def bestWrites (best : ℚ) : List ℚ → List Bool
  | [] => []
  | p :: ps => (bestStep best p).2 :: bestWrites (bestStep best p).1 ps

/-- The running best metric after folding `bestStep` over a sequence of
validation metrics. -/
def bestAfter (best : ℚ) : List ℚ → ℚ
  | [] => best
  | p :: ps => bestAfter (bestStep best p).1 ps

/-! ## Periodic checkpointing (trainer.py line 171) -/

/-- The guard of the periodic save,
`if epoch > 0 and (epoch + 1) % args.save_every == 0` (trainer.py line 171). -/
def periodicSave (save_every epoch : ℕ) : Bool :=
  decide (epoch > 0) && decide ((epoch + 1) % save_every = 0)

/-! ## AverageMeter (trainer.py lines 310-325) -/

/-- The `AverageMeter` running-mean tracker: current value, running mean,
running weighted sum, and total weight. -/
structure AverageMeter where
  val : ℚ
  avg : ℚ
  sum : ℚ
  count : ℚ
deriving DecidableEq

/-- `reset()`: sets `val`, `avg`, `sum`, `count` all to `0`
(also what `__init__` does, since it just calls `reset`). -/
def AverageMeter.reset : AverageMeter := ⟨0, 0, 0, 0⟩

/-- `update(val, n)`: `self.val = val; self.sum += val * n; self.count += n;
self.avg = self.sum / self.count`.  The division raises `ZeroDivisionError`
in Python when the updated `count` is zero, modelled as `none`. -/
def AverageMeter.update (m : AverageMeter) (v : ℚ) (n : ℚ) : Option AverageMeter :=
  let sum := m.sum + v * n
  let count := m.count + n
  if count = 0 then none else some ⟨v, sum / count, sum, count⟩

/-- A fresh meter fed a sequence of `update (value, weight)` calls. -/
def runMeter (pairs : List (ℚ × ℚ)) : Option AverageMeter :=
  pairs.foldlM (fun m p => m.update p.1 p.2) AverageMeter.reset

/-! ## Helper lemmas -/

theorem bestStep_fst (b p : ℚ) : (bestStep b p).1 = max p b := rfl

theorem bestWrites_getD (b : ℚ) (ms : List ℚ) (i : ℕ) (h : i < ms.length) :
    (bestWrites b ms).getD i false = decide (bestAfter b (ms.take i) < ms.getD i 0) := by
  induction ms generalizing b i with
  | nil => simp at h
  | cons m ms ih =>
    cases i with
    | zero => simp [bestWrites, bestAfter, bestStep, gt_iff_lt]
    | succ n =>
      have hn : n < ms.length := by simpa using h
      simpa [bestWrites, bestAfter, bestStep] using ih (max m b) n hn

theorem le_bestAfter (b : ℚ) (ms : List ℚ) : b ≤ bestAfter b ms := by
  induction ms generalizing b with
  | nil => simp [bestAfter]
  | cons m ms ih =>
    calc b ≤ max m b := le_max_right m b
    _ ≤ bestAfter (max m b) ms := ih (max m b)
    _ = bestAfter b (m :: ms) := by simp [bestAfter, bestStep]

theorem bestAfter_append (b : ℚ) (xs ys : List ℚ) :
    bestAfter b (xs ++ ys) = bestAfter (bestAfter b xs) ys := by
  induction xs generalizing b with
  | nil => simp [bestAfter]
  | cons x xs ih => simp [bestAfter, ih]

theorem bestAfter_take_mono (b : ℚ) (ms : List ℚ) (i : ℕ) :
    bestAfter b (ms.take i) ≤ bestAfter b (ms.take (i + 1)) := by
  rw [List.take_succ, bestAfter_append]
  exact le_bestAfter _ _

theorem runMeter_aux (pairs : List (ℚ × ℚ)) (m : AverageMeter) (hc : 0 ≤ m.count)
    (hw : ∀ p ∈ pairs, 0 < p.2) :
    ∃ m2, pairs.foldlM (fun m p => m.update p.1 p.2) m = some m2
      ∧ m2.sum = m.sum + (pairs.map (fun p => p.1 * p.2)).sum
      ∧ m2.count = m.count + (pairs.map Prod.snd).sum
      ∧ (pairs = [] → m2 = m)
      ∧ (∀ v n, pairs.getLast? = some (v, n) →
          m2.avg = m2.sum / m2.count ∧ m2.val = v) := by
  induction pairs generalizing m with
  | nil => exact ⟨m, by simp, by simp, by simp, fun _ => rfl, by simp⟩
  | cons p ps ih =>
    have hp : 0 < p.2 := hw p (List.mem_cons_self _ _)
    have hcount : m.count + p.2 ≠ 0 := by positivity
    have hstep : m.update p.1 p.2 =
        some ⟨p.1, (m.sum + p.1 * p.2) / (m.count + p.2), m.sum + p.1 * p.2, m.count + p.2⟩ := by
      simp [AverageMeter.update, hcount]
    obtain ⟨m2, h1, h2, h3, h4, h5⟩ :=
      ih ⟨p.1, (m.sum + p.1 * p.2) / (m.count + p.2), m.sum + p.1 * p.2, m.count + p.2⟩
        (by have := hc; simp only []; positivity)
        (fun q hq => hw q (List.mem_cons_of_mem _ hq))
    refine ⟨m2, ?_, by simpa [add_assoc] using h2, by simpa [add_assoc] using h3, ?_, ?_⟩
    · rw [List.foldlM_cons, hstep]
      simpa using h1
    · intro hcons; cases hcons
    · intro v n hlast
      rcases hps : ps with _ | ⟨q, qs⟩
      · subst hps
        have hm2 : m2 = ⟨p.1, (m.sum + p.1 * p.2) / (m.count + p.2),
            m.sum + p.1 * p.2, m.count + p.2⟩ := h4 rfl
        have hpv : p = (v, n) := by simpa using hlast
        subst hm2
        constructor
        · rfl
        · simp [hpv]
      · subst hps
        exact h5 v n (by simpa using hlast)

/-! ## Claim theorems: controller and meter -/

/-- C1: at each epoch, `is_best` is the strict comparison `prec1 > best`,
the best metric is updated to `max(prec1, best)`, a best checkpoint is
written iff `is_best`; hence over any sequence of validation metrics the
best-write flags mark exactly the strict improvements over the running
best, the running best is monotonically non-decreasing, and on the spec's
example sequence `[70, 68, 71, 71, 72]` writes happen exactly at
`70, 71, 72`. -/
theorem controller_best_tracking (b p : ℚ) (ms : List ℚ) (i : ℕ) (h : i < ms.length) :
    (bestStep b p).2 = decide (p > b)
    ∧ (bestStep b p).1 = max p b
    ∧ (bestWrites b ms).getD i false = decide (bestAfter b (ms.take i) < ms.getD i 0)
    ∧ bestAfter b (ms.take i) ≤ bestAfter b (ms.take (i + 1))
    ∧ bestWrites best_prec1_init [70, 68, 71, 71, 72] = [true, false, true, false, true] := by
  exact ⟨rfl, rfl, bestWrites_getD b ms i h, bestAfter_take_mono b ms i, by decide⟩

/-- Witness for `controller_best_tracking` at the concrete input
`b = 0`, `ms = [70, 68, 71, 71, 72]`, `i = 2`. -/
theorem controller_best_tracking_witness :
    (2 : ℕ) < ([70, 68, 71, 71, 72] : List ℚ).length
    ∧ (bestWrites 0 [70, 68, 71, 71, 72]).getD 2 false
        = decide (bestAfter 0 (([70, 68, 71, 71, 72] : List ℚ).take 2) < ([70, 68, 71, 71, 72] : List ℚ).getD 2 0) := by
  refine ⟨by decide, ?_⟩
  exact (controller_best_tracking 0 0 [70, 68, 71, 71, 72] 2 (by decide)).2.2.1

/-- C3: the periodic checkpoint guard holds iff `epoch > 0` and
`(epoch + 1) % save_every == 0`; with `save_every = 10` and 25 epochs it
fires exactly at epochs 9 and 19, and never at epoch 0. -/
theorem periodic_checkpoint_timing (s e : ℕ) :
    (periodicSave s e = true ↔ 0 < e ∧ (e + 1) % s = 0)
    ∧ (∀ k, k < 25 → (periodicSave 10 k = true ↔ k = 9 ∨ k = 19))
    ∧ periodicSave 10 0 = false := by
  refine ⟨by simp [periodicSave], by decide, by decide⟩

/-- Witness for `periodic_checkpoint_timing` at `save_every = 10`,
`epoch = 19`. -/
theorem periodic_checkpoint_timing_witness : periodicSave 10 19 = true := by
  exact ((periodic_checkpoint_timing 10 19).2.1 19 (by decide)).mpr (Or.inr rfl)

/-- C2: with a resume path configured, if the filesystem has a checkpoint
at that path then `start_epoch`, `best_prec1` and the model parameters are
restored from it and the next executed epoch is the stored epoch value;
if the path is missing, the condition is logged and the pre-block
defaults are kept — the function is total, so the branch is never fatal. -/
theorem resume_behavior (path : String) (fs : String → Option Checkpoint) (ck : Checkpoint)
    (s0 : ℕ) (b0 : ℚ) (p0 : List ℚ) (epochs : ℕ) :
    (fs path = some ck →
      resumeStep (some path) fs s0 b0 p0 = ⟨ck.epoch, ck.best_prec1, ck.state_dict, false⟩
      ∧ (ck.epoch < epochs → (epochsToRun ck.epoch epochs).head? = some ck.epoch))
    ∧ (fs path = none →
      resumeStep (some path) fs s0 b0 p0 = ⟨s0, b0, p0, true⟩) := by
  constructor
  · intro hfs
    refine ⟨by simp [resumeStep, hfs], ?_⟩
    intro hlt
    simp [epochsToRun, List.head?_drop, hlt]
  · intro hfs
    simp [resumeStep, hfs]

/-- Witness for `resume_behavior`: a store holding a checkpoint with
`epoch = 5`, `best_prec1 = 80` at the resume path, with 10 total epochs. -/
theorem resume_behavior_witness :
    resumeStep (some (r"ck.th")) (fun _ => some ⟨5, [], 80⟩) 0 0 [] = ⟨5, 80, [], false⟩
    ∧ (epochsToRun 5 10).head? = some 5 := by
  obtain ⟨h1, h2⟩ :=
    (resume_behavior (r"ck.th") (fun _ => some ⟨5, [], 80⟩) ⟨5, [], 80⟩ 0 0 [] 10).1 rfl
  exact ⟨h1, h2 (by decide)⟩

/-- C8: the checkpoint written after epoch `E` carries exactly the fields
`epoch = E + 1`, the model parameters, and the best metric, and a
save/load round-trip through the store returns the record exactly. -/
theorem checkpoint_roundtrip (E : ℕ) (p : List ℚ) (b : ℚ)
    (store : List (String × Checkpoint)) (path : String) (ck : Checkpoint) :
    (mkCheckpointRecord E p b).epoch = E + 1
    ∧ (mkCheckpointRecord E p b).state_dict = p
    ∧ (mkCheckpointRecord E p b).best_prec1 = b
    ∧ loadCheckpoint (saveCheckpoint store path ck) path = some ck := by
  refine ⟨rfl, rfl, rfl, ?_⟩
  simp [loadCheckpoint, saveCheckpoint, List.find?]

/-- C9 counterexample: the initial best metric is the literal `0`
(trainer.py line 58), not negative infinity, so a first validation metric
of `0.0` is not a strict improvement and triggers no best-checkpoint
write — refuting the claim that any first metric (including `0.0`)
triggers one. -/
theorem fresh_run_zero_metric_no_write :
    best_prec1_init = 0 ∧ bestWrites best_prec1_init [0] = [false] := by
  decide

/-- C9 amended: on a fresh run the initial best metric is `0`, so the
first validation metric triggers a best-checkpoint write iff it is
strictly positive. -/
theorem fresh_run_first_write_iff_pos (m : ℚ) :
    bestWrites best_prec1_init [m] = [decide (m > 0)] := by
  simp [bestWrites, bestStep, best_prec1_init]

/-- C6: feeding a fresh `AverageMeter` any sequence of `update(v, w)`
calls with positive weights never divides by zero and yields
`sum = Σ v_i * w_i`, `count = Σ w_i`, `avg = sum / count` (when nonempty)
and `val` equal to the last value; `reset` restores the exact zero state,
whose mean is `0` by convention. -/
theorem averageMeter_spec (pairs : List (ℚ × ℚ)) (hw : ∀ p ∈ pairs, 0 < p.2) :
    (∃ m, runMeter pairs = some m
      ∧ m.sum = (pairs.map (fun p => p.1 * p.2)).sum
      ∧ m.count = (pairs.map Prod.snd).sum
      ∧ (∀ v n, pairs.getLast? = some (v, n) →
          m.avg = (pairs.map (fun p => p.1 * p.2)).sum / (pairs.map Prod.snd).sum ∧ m.val = v)
      ∧ (pairs = [] → m = AverageMeter.reset))
    ∧ AverageMeter.reset.avg = 0 ∧ AverageMeter.reset.count = 0
    ∧ AverageMeter.reset = ⟨0, 0, 0, 0⟩ := by
  obtain ⟨m, h1, h2, h3, h4, h5⟩ := runMeter_aux pairs AverageMeter.reset le_rfl hw
  simp only [AverageMeter.reset, zero_add] at h2 h3
  refine ⟨⟨m, h1, h2, h3, ?_, h4⟩, rfl, rfl, rfl⟩
  intro v n hlast
  obtain ⟨ha, hv⟩ := h5 v n hlast
  exact ⟨by rw [ha, h2, h3], hv⟩

/-- Witness for `averageMeter_spec` on the concrete call sequence
`update(3, 1); update(5, 1)`. -/
theorem averageMeter_spec_witness :
    ∃ m, runMeter [(3, 1), (5, 1)] = some m
      ∧ m.sum = 8 ∧ m.count = 2 ∧ m.avg = 4 ∧ m.val = 5 := by
  obtain ⟨⟨m, h1, h2, h3, h4, _⟩, _⟩ :=
    averageMeter_spec [(3, 1), (5, 1)] (by norm_num)
  obtain ⟨ha, hv⟩ := h4 5 1 rfl
  refine ⟨m, h1, by rw [h2]; norm_num, by rw [h3]; norm_num, ?_, hv⟩
  rw [ha]; norm_num

/-! ## Learning-rate schedule (trainer.py lines 124-131, 152)

`torch.optim.lr_scheduler.MultiStepLR` is external library code, absent
from this repository; the schedule semantics below are modelled from the
spec's schedule contract. -/

/-- The milestone epochs passed to the scheduler (trainer.py line 125). -/
def milestones : List ℕ := [100, 150]

/-- The decay factor: `MultiStepLR`'s default `gamma = 0.1`. -/
def gammaFactor : ℚ := 1 / 10

/-- Modelled from the spec: the scheduler implementation
(`torch.optim.lr_scheduler.MultiStepLR`) is missing from the repository.
Per the spec, the schedule is a deterministic function of the epoch
index: "a base learning rate is multiplied by a decay factor at fixed
milestone epochs (here: milestones at epoch 100 and 150, each applying a
10x reduction, cumulative)" — the rate at epoch `e` is the base rate
times `gammaFactor` raised to the number of milestones at or before `e`. -/
def multiStepLR (base : ℚ) (e : ℕ) : ℚ :=
  base * gammaFactor ^ (milestones.countP (fun mst => decide (mst ≤ e)))

/-- Advancing the schedule into epoch `newEpoch`: a 10x decay is applied
exactly when `newEpoch` is a milestone. -/
def schedNext (lr : ℚ) (newEpoch : ℕ) : ℚ :=
  if newEpoch ∈ milestones then lr * gammaFactor else lr

/-- The learning rate the schedule supplies during epoch `s + n` of a run
whose scheduler was constructed with `last_epoch = s - 1` (trainer.py
line 125): the schedule's value at epoch `s` initially, advanced by one
`lr_scheduler.step()` (trainer.py line 152) at each epoch boundary. -/
def lrFrom (s : ℕ) (base : ℚ) : ℕ → ℚ
  | 0 => multiStepLR base s
  | n + 1 => schedNext (lrFrom s base n) (s + n + 1)

/-- The two architectures with the warm-up override (trainer.py line 127). -/
def warmupArchs : List String := [r"resnet1202", r"resnet110"]

/-- The optimizer learning rate right after setup (trainer.py lines
120-131): the schedule's value at the start epoch, overwritten with
`args.lr * 0.1` for the warm-up architectures. -/
def initialLr (arch : String) (base : ℚ) (start_epoch : ℕ) : ℚ :=
  if arch ∈ warmupArchs then base * (1 / 10) else multiStepLR base start_epoch

/-- Modelled from the spec: the learning rate in effect during epoch
`start_epoch + n` of a run.  The warm-up override is "applied once at
initialization, independent of the milestone schedule", so it governs the
first executed epoch only; every later epoch takes the schedule's value. -/
def lrTrace (arch : String) (base : ℚ) (start_epoch : ℕ) : ℕ → ℚ
  | 0 => initialLr arch base start_epoch
  | n + 1 => lrFrom start_epoch base (n + 1)

theorem countP_milestones (e : ℕ) :
    milestones.countP (fun mst => decide (mst ≤ e)) =
      (if 100 ≤ e then 1 else 0) + (if 150 ≤ e then 1 else 0) := by
  simp only [milestones, List.countP_cons, List.countP_nil]
  split_ifs <;> simp_all

theorem countP_milestones_succ (e : ℕ) :
    milestones.countP (fun mst => decide (mst ≤ e + 1)) =
      milestones.countP (fun mst => decide (mst ≤ e))
        + (if (e + 1) ∈ milestones then 1 else 0) := by
  rw [countP_milestones, countP_milestones]
  simp only [milestones, List.mem_cons, List.not_mem_nil, or_false]
  split_ifs <;> omega

theorem multiStepLR_succ (base : ℚ) (e : ℕ) :
    multiStepLR base (e + 1) = schedNext (multiStepLR base e) (e + 1) := by
  unfold multiStepLR schedNext
  rw [countP_milestones_succ]
  by_cases hm : (e + 1) ∈ milestones
  · simp only [hm, if_true, if_pos]
    rw [pow_succ]
    ring
  · simp [hm]

theorem lrFrom_eq (s : ℕ) (base : ℚ) (n : ℕ) :
    lrFrom s base n = multiStepLR base (s + n) := by
  induction n with
  | zero => rfl
  | succ n ih =>
    show schedNext (lrFrom s base n) (s + n + 1) = _
    rw [ih, ← multiStepLR_succ, Nat.add_assoc]

/-- C4: the milestone schedule is a deterministic function of the epoch
index — base LR `0.1` gives `0.1` before epoch 100, `0.01` for epochs
100-149 and `0.001` from 150 on — and it is resumable: a schedule
constructed at start epoch `s` supplies, for every subsequent epoch, the
same rate as an uninterrupted run from epoch 0; in particular resuming at
epoch 120 reproduces LR `0.01`. -/
theorem lr_schedule_resumable (base : ℚ) (s n e : ℕ) :
    lrFrom s base n = lrFrom 0 base (s + n)
    ∧ (e < 100 → multiStepLR (1 / 10) e = 1 / 10)
    ∧ (100 ≤ e → e < 150 → multiStepLR (1 / 10) e = 1 / 100)
    ∧ (150 ≤ e → multiStepLR (1 / 10) e = 1 / 1000)
    ∧ lrFrom 120 (1 / 10) 0 = 1 / 100 := by
  refine ⟨?_, ?_, ?_, ?_, ?_⟩
  · rw [lrFrom_eq, lrFrom_eq, Nat.zero_add]
  · intro h
    unfold multiStepLR
    rw [countP_milestones, if_neg (by omega), if_neg (by omega)]
    norm_num
  · intro h1 h2
    unfold multiStepLR
    rw [countP_milestones, if_pos (by omega), if_neg (by omega)]
    norm_num [gammaFactor]
  · intro h
    unfold multiStepLR
    rw [countP_milestones, if_pos (by omega), if_pos (by omega)]
    norm_num [gammaFactor]
  · rw [lrFrom_eq]
    unfold multiStepLR
    rw [countP_milestones, if_pos (by omega), if_neg (by omega)]
    norm_num [gammaFactor]

/-- Witness for `lr_schedule_resumable`: resuming at epoch 120
reproduces LR `0.01`. -/
theorem lr_schedule_resumable_witness :
    multiStepLR (1 / 10) 120 = 1 / 100 := by
  exact (lr_schedule_resumable (1 / 10) 120 0 120).2.2.1 (by omega) (by omega)

/-- C5: for the warm-up architectures (resnet110 and resnet1202), a fresh
run uses one-tenth of the configured base rate during the first epoch
only; from epoch 1 up to the first milestone the rate equals the
configured base rate (the normal schedule). -/
theorem warmup_first_epoch (arch : String) (base : ℚ) (n : ℕ) (harch : arch ∈ warmupArchs) :
    lrTrace arch base 0 0 = base * (1 / 10)
    ∧ (1 ≤ n → n < 100 → lrTrace arch base 0 n = base) := by
  constructor
  · simp [lrTrace, initialLr, harch]
  · intro h1 h2
    match n, h1 with
    | n + 1, _ =>
      show lrFrom 0 base (n + 1) = base
      rw [lrFrom_eq]
      unfold multiStepLR
      rw [countP_milestones, if_neg (by omega), if_neg (by omega)]
      norm_num

/-- Witness for `warmup_first_epoch` at `arch = "resnet110"`, `base = 1`,
epochs 0 and 1. -/
theorem warmup_first_epoch_witness :
    lrTrace (r"resnet110") 1 0 0 = 1 * (1 / 10) ∧ lrTrace (r"resnet110") 1 0 1 = 1 := by
  obtain ⟨h1, h2⟩ := warmup_first_epoch (r"resnet110") 1 1 (by decide)
  exact ⟨h1, h2 le_rfl (by omega)⟩

/-! ## Top-k accuracy (trainer.py lines 328-341) -/

/-- The ordering `output.topk(maxk, 1, True, True)` induces on the class
indices of one score row: higher score first, ties broken
deterministically by lower index. -/
def scoreOrder (row : List ℚ) (i j : ℕ) : Bool :=
  decide (row.getD j 0 < row.getD i 0)
    || (decide (row.getD i 0 = row.getD j 0) && decide (i ≤ j))

/-- Insertion into a list already ordered by `le`. -/
def insertSorted (le : ℕ → ℕ → Bool) (a : ℕ) : List ℕ → List ℕ
  | [] => [a]
  | b :: l => if le a b then a :: b :: l else b :: insertSorted le a l

/-- Insertion sort by `le`. -/
def sortIdx (le : ℕ → ℕ → Bool) : List ℕ → List ℕ
  | [] => []
  | a :: l => insertSorted le a (sortIdx le l)

/-- The index component of `row.topk(k)`: the first `k` class indices of
the row in decreasing-score order. -/
def topkIndices (row : List ℚ) (k : ℕ) : List ℕ :=
  (sortIdx (scoreOrder row) (List.range row.length)).take k

/-- `pred.t()` for a `batch × maxk` index matrix: row `j` of the result
collects entry `j` of every row of `mat`. -/
def transposeIdx (mat : List (List ℕ)) (maxk : ℕ) : List (List ℕ) :=
  (List.range maxk).map (fun j => mat.map (fun row => row.getD j 0))

/-- `accuracy(output, target, topk)` (trainer.py lines 328-341): top-`maxk`
indices per row, transposed, compared elementwise against the broadcast
targets; for each requested `k`, the count of `True` entries in the first
`k` rows of the comparison matrix is scaled by `100 / batch_size`. -/
def accuracy (output : List (List ℚ)) (target : List ℕ) (topk : List ℕ) : List ℚ :=
  let maxk := topk.foldr max 0
  let batch_size := target.length
  let pred := output.map (fun row => topkIndices row maxk)
  let correct := (transposeIdx pred maxk).map
    (fun prow => (prow.zip target).map (fun q => decide (q.1 = q.2)))
  topk.map (fun k =>
    ((correct.take k).flatten.countP id : ℚ) * (100 / (batch_size : ℚ)))

/-- The specification-level count: the number of examples whose true
class index is among the indices of the `k` highest scores of their row. -/
def topkCorrectCount (output : List (List ℚ)) (target : List ℕ) (k : ℕ) : ℕ :=
  (output.zip target).countP (fun q => decide (q.2 ∈ topkIndices q.1 k))

/-! ### Sorting permutation facts -/

theorem insertSorted_perm (le : ℕ → ℕ → Bool) (a : ℕ) (l : List ℕ) :
    List.Perm (insertSorted le a l) (a :: l) := by
  induction l with
  | nil => exact List.Perm.refl _
  | cons b l ih =>
    unfold insertSorted
    by_cases h : le a b = true
    · rw [if_pos h]
    · rw [if_neg h]
      exact (ih.cons b).trans (List.Perm.swap a b l)

theorem sortIdx_perm (le : ℕ → ℕ → Bool) (l : List ℕ) : List.Perm (sortIdx le l) l := by
  induction l with
  | nil => exact List.Perm.refl _
  | cons a l ih => exact (insertSorted_perm le a (sortIdx le l)).trans (ih.cons a)

theorem sortIdx_range_length (le : ℕ → ℕ → Bool) (n : ℕ) :
    (sortIdx le (List.range n)).length = n := by
  rw [(sortIdx_perm le (List.range n)).length_eq, List.length_range]

theorem sortIdx_range_nodup (le : ℕ → ℕ → Bool) (n : ℕ) :
    (sortIdx le (List.range n)).Nodup :=
  (sortIdx_perm le (List.range n)).symm.nodup (List.nodup_range n)

/-! ### Counting helpers -/

theorem le_foldr_max (ks : List ℕ) (k : ℕ) (hk : k ∈ ks) : k ≤ ks.foldr max 0 := by
  induction ks with
  | nil => cases hk
  | cons a l ih =>
    rcases List.mem_cons.mp hk with rfl | hk
    · exact le_max_left _ _
    · exact le_trans (ih hk) (le_max_right _ _)

theorem countP_eq_sum_ite {α : Type} (l : List α) (p : α → Bool) :
    l.countP p = (l.map (fun x => if p x then 1 else 0)).sum := by
  induction l with
  | nil => rfl
  | cons x l ih => simp [List.countP_cons, ih, Nat.add_comm]

theorem sum_map_range (h : ℕ → ℕ) (k : ℕ) :
    ((List.range k).map h).sum = ∑ j ∈ Finset.range k, h j := by
  induction k with
  | zero => simp
  | succ k ih =>
    rw [List.range_succ, List.map_append, List.sum_append, Finset.sum_range_succ, ih]
    simp

theorem sum_countP_comm {α : Type} (k : ℕ) (l : List α) (P : ℕ → α → Bool) :
    (∑ j ∈ Finset.range k, l.countP (P j))
      = (l.map (fun x => (List.range k).countP (fun j => P j x))).sum := by
  induction l with
  | nil => simp
  | cons x xs ih =>
    simp only [List.countP_cons, List.map_cons, List.sum_cons]
    rw [Finset.sum_add_distrib, ih]
    have hx : (∑ j ∈ Finset.range k, if P j x then 1 else 0)
        = (List.range k).countP (fun j => P j x) := by
      rw [countP_eq_sum_ite, sum_map_range]
    omega

theorem notMem_take_self {α : Type} [DecidableEq α] (p : List α) (k : ℕ) (hk : k < p.length)
    (hp : p.Nodup) : p[k] ∉ p.take k := by
  intro hmem
  have hdrop : p[k] ∈ p.drop k := by
    rw [← List.getElem_cons_drop p k hk]
    exact List.mem_cons_self _ _
  exact (List.disjoint_take_drop hp le_rfl) hmem hdrop

theorem countP_range_getD (p : List ℕ) (hp : p.Nodup) (k : ℕ) (hk : k ≤ p.length) (t : ℕ) :
    (List.range k).countP (fun j => decide (p.getD j 0 = t))
      = if t ∈ p.take k then 1 else 0 := by
  induction k with
  | zero => simp
  | succ k ih =>
    have hk1 : k < p.length := hk
    have htake : p.take (k + 1) = p.take k ++ [p[k]] := by
      rw [List.take_succ, List.getElem?_eq_getElem hk1]
      rfl
    have hsingle : List.countP (fun j => decide (p.getD j 0 = t)) [k]
        = if p[k] = t then 1 else 0 := by
      simp [List.countP_cons, List.getElem?_eq_getElem hk1]
    have hiff : t ∈ p.take (k + 1) ↔ (t ∈ p.take k ∨ t = p[k]) := by
      rw [htake]
      exact List.mem_append.trans (or_congr Iff.rfl List.mem_singleton)
    rw [List.range_succ, List.countP_append, ih (le_of_lt hk1), hsingle]
    by_cases hmem : t ∈ p.take k
    · have hne : p[k] ≠ t := by
        rintro rfl
        exact notMem_take_self p k hk1 hp hmem
      rw [if_pos hmem, if_neg hne, if_pos (hiff.mpr (Or.inl hmem))]
    · by_cases heq : p[k] = t
      · rw [if_neg hmem, if_pos heq, if_pos (hiff.mpr (Or.inr heq.symm))]
      · rw [if_neg hmem, if_neg heq,
          if_neg (fun hc => (hiff.mp hc).elim hmem (fun h => heq h.symm))]

/-! ### The implementation count equals the specification count -/

theorem countImpl_eq (output : List (List ℚ)) (target : List ℕ) (maxk k : ℕ)
    (hk : k ≤ maxk) (hrows : ∀ row ∈ output, maxk ≤ row.length) :
    (((transposeIdx (output.map (fun row => topkIndices row maxk)) maxk).map
        (fun prow => (prow.zip target).map (fun q => decide (q.1 = q.2)))).take k).flatten.countP id
      = topkCorrectCount output target k := by
  have hexample : ∀ x ∈ output.zip target,
      (List.range k).countP (fun j => decide ((topkIndices x.1 maxk).getD j 0 = x.2))
        = if decide (x.2 ∈ topkIndices x.1 k) then 1 else 0 := by
    intro x hx
    obtain ⟨hx1, _⟩ := List.of_mem_zip hx
    have hrow : maxk ≤ x.1.length := hrows x.1 hx1
    have hplen : (sortIdx (scoreOrder x.1) (List.range x.1.length)).length = x.1.length :=
      sortIdx_range_length _ _
    have hkp : k ≤ (sortIdx (scoreOrder x.1) (List.range x.1.length)).length := by
      rw [hplen]; exact le_trans hk hrow
    have hcongr : ∀ j ∈ List.range k,
        (decide ((topkIndices x.1 maxk).getD j 0 = x.2) = true
          ↔ decide ((sortIdx (scoreOrder x.1) (List.range x.1.length)).getD j 0 = x.2) = true) := by
      intro j hj
      have hjk : j < k := List.mem_range.mp hj
      have hgd : (topkIndices x.1 maxk).getD j 0
          = (sortIdx (scoreOrder x.1) (List.range x.1.length)).getD j 0 := by
        unfold topkIndices
        have hjp : j < (sortIdx (scoreOrder x.1) (List.range x.1.length)).length := by
          rw [hplen]; omega
        have hjt : j < ((sortIdx (scoreOrder x.1) (List.range x.1.length)).take maxk).length := by
          rw [List.length_take, hplen]
          omega
        rw [List.getD_eq_getElem _ _ hjt, List.getD_eq_getElem _ _ hjp, List.getElem_take]
      rw [hgd]
    rw [List.countP_congr hcongr,
      countP_range_getD _ (sortIdx_range_nodup _ _) k hkp x.2]
    simp [topkIndices]
  calc (((transposeIdx (output.map (fun row => topkIndices row maxk)) maxk).map
        (fun prow => (prow.zip target).map (fun q => decide (q.1 = q.2)))).take k).flatten.countP id
      = (((List.range k).map (fun j =>
          (((output.map (fun row => topkIndices row maxk)).map
            (fun row => row.getD j 0)).zip target).map
              (fun q => decide (q.1 = q.2))))).flatten.countP id := by
        rw [transposeIdx, List.map_map, ← List.map_take, List.take_range, min_eq_left hk]
        rfl
    _ = (((List.range k).map (fun j =>
          (((output.map (fun row => topkIndices row maxk)).map
            (fun row => row.getD j 0)).zip target).map
              (fun q => decide (q.1 = q.2)))).map (fun s => s.countP id)).sum := by
        rw [List.countP_flatten]
    _ = ((List.range k).map (fun j =>
          ((((output.map (fun row => topkIndices row maxk)).map
            (fun row => row.getD j 0)).zip target).map
              (fun q => decide (q.1 = q.2))).countP id)).sum := by
        rw [List.map_map]
        rfl
    _ = ∑ j ∈ Finset.range k,
          ((((output.map (fun row => topkIndices row maxk)).map
            (fun row => row.getD j 0)).zip target).map
              (fun q => decide (q.1 = q.2))).countP id := sum_map_range _ k
    _ = ∑ j ∈ Finset.range k,
          (output.zip target).countP
            (fun x => decide ((topkIndices x.1 maxk).getD j 0 = x.2)) := by
        refine Finset.sum_congr rfl (fun j _ => ?_)
        rw [List.countP_map, List.map_map, List.zip_map_left, List.countP_map]
        rfl
    _ = ((output.zip target).map (fun x =>
          (List.range k).countP
            (fun j => decide ((topkIndices x.1 maxk).getD j 0 = x.2)))).sum :=
        sum_countP_comm k _ _
    _ = ((output.zip target).map (fun x =>
          if decide (x.2 ∈ topkIndices x.1 k) then 1 else 0)).sum := by
        rw [List.map_congr_left hexample]
    _ = topkCorrectCount output target k := (countP_eq_sum_ite _ _).symm

theorem accuracy_eq (output : List (List ℚ)) (target : List ℕ) (ks : List ℕ)
    (hrows : ∀ row ∈ output, ks.foldr max 0 ≤ row.length) :
    accuracy output target ks
      = ks.map (fun k =>
          100 * (topkCorrectCount output target k : ℚ) / (target.length : ℚ)) := by
  simp only [accuracy]
  refine List.map_congr_left (fun k hk => ?_)
  rw [countImpl_eq output target (ks.foldr max 0) k (le_foldr_max ks k hk) hrows]
  ring

/-! ## Claim theorems: accuracy -/

/-- C7: for every batch of score rows with corresponding true class
indices (each row holding at least `max(topk)` classes) and every
requested `k`, `accuracy` returns
`100 * (number of examples whose true class index is among the indices of
the k highest scores of its row) / batch_size`; it is a pure function of
its arguments, and on the spec's concrete scores
`[[0.1, 0.9], [0.8, 0.2]]` it returns `[100]` for targets `[1, 0]` and
`[0]` for targets `[0, 1]`. -/
theorem accuracy_topk_spec (output : List (List ℚ)) (target : List ℕ) (ks : List ℕ)
    (hrows : ∀ row ∈ output, ks.foldr max 0 ≤ row.length) :
    accuracy output target ks
      = ks.map (fun k =>
          100 * (topkCorrectCount output target k : ℚ) / (target.length : ℚ))
    ∧ accuracy [[1/10, 9/10], [8/10, 2/10]] [1, 0] [1] = [100]
    ∧ accuracy [[1/10, 9/10], [8/10, 2/10]] [0, 1] [1] = [0] := by
  refine ⟨accuracy_eq output target ks hrows, ?_, ?_⟩ <;>
    norm_num [accuracy, topkIndices, sortIdx, insertSorted, scoreOrder, transposeIdx,
      List.range_succ, List.countP_cons]

/-- Witness for `accuracy_topk_spec` at the spec's concrete scores with
targets `[1, 0]` and `topk = (1,)`. -/
theorem accuracy_topk_spec_witness :
    accuracy [[1/10, 9/10], [8/10, 2/10]] [1, 0] [1]
      = [1].map (fun k =>
          100 * (topkCorrectCount [[1/10, 9/10], [8/10, 2/10]] [1, 0] k : ℚ)
            / (([1, 0] : List ℕ).length : ℚ)) :=
  (accuracy_topk_spec [[1/10, 9/10], [8/10, 2/10]] [1, 0] [1] (by simp)).1

/-- C10: for a nonempty batch whose rows each hold at least `max(topk)`
classes, `accuracy` returns exactly one value per requested `k`, and
every returned value lies in the closed interval `[0, 100]`. -/
theorem accuracy_length_bounds (output : List (List ℚ)) (target : List ℕ) (ks : List ℕ)
    (hb : 0 < target.length)
    (hrows : ∀ row ∈ output, ks.foldr max 0 ≤ row.length) :
    (accuracy output target ks).length = ks.length
    ∧ ∀ x ∈ accuracy output target ks, 0 ≤ x ∧ x ≤ 100 := by
  have heq := accuracy_eq output target ks hrows
  constructor
  · rw [heq, List.length_map]
  · intro x hx
    rw [heq] at hx
    obtain ⟨k, hk, rfl⟩ := List.mem_map.mp hx
    have hcount : topkCorrectCount output target k ≤ target.length := by
      refine le_trans (List.countP_le_length _) ?_
      rw [List.length_zip]
      exact min_le_right _ _
    have hbq : (0 : ℚ) < (target.length : ℚ) := by exact_mod_cast hb
    have hcq : (topkCorrectCount output target k : ℚ) ≤ (target.length : ℚ) := by
      exact_mod_cast hcount
    constructor
    · positivity
    · rw [div_le_iff₀ hbq]
      linarith

/-- Witness for `accuracy_length_bounds` at the spec's concrete scores
with targets `[1, 0]` and `topk = (1,)`. -/
theorem accuracy_length_bounds_witness :
    (accuracy [[1/10, 9/10], [8/10, 2/10]] [1, 0] [1]).length = 1 :=
  (accuracy_length_bounds [[1/10, 9/10], [8/10, 2/10]] [1, 0] [1] (by simp) (by simp)).1
